import Mathlib

/-!
Verification of the PyMAUDE curation and adjudication engine.

This file gives a shallow embedding of the core logic of the repository:

* `DeviceSearchStrategy.apply` (src/pymaude/search_strategy.py): the
  boolean-criteria resolver partitioning reports into
  included / excluded / needs-review;
* `DeviceSearchStrategy.add_manual_decision`, `to_yaml` / `from_yaml`;
* `AdjudicationLog` (src/pymaude/adjudication.py): `add`,
  `include_remaining` / `exclude_remaining`, `to_csv` / `_load_from_csv`,
  `get_statistics`, `get_inclusion_keys` / `get_exclusion_keys`;
* the multi-deferred resolution loop of
  `SelectionWidget._build_multi_deferred_content.save_and_continue`
  (src/pymaude/selection_widget.py);
* the deduplication helpers (`count_unique_outcomes_per_report`),
  modelled from the specification since `analysis_helpers.py` is not
  part of the sources at hand.

DataFrames are modelled as lists of rows; report keys are strings (the
code coerces keys with `astype(str)` / `str(...)` before comparing).
Timestamps are modelled as natural numbers together with an
injective decimal serialization standing for `datetime.isoformat` /
`datetime.fromisoformat` (the Python pair is mutually inverse at the
precision `isoformat` emits).
-/

namespace PyMaude

/-- Case-insensitive substring test helper: does `needle` occur at the
head of `hay`? (model of the leading-position comparison used by
`str.contains`). -/
def matchesAt : List Char → List Char → Bool
  | [], _ => true
  | _ :: _, [] => false
  | a :: as, b :: bs => (a = b) && matchesAt as bs

/-- Does `needle` occur anywhere inside `hay`? -/
def containsSeq (needle : List Char) : List Char → Bool
  | [] => needle.isEmpty
  | h :: t => matchesAt needle (h :: t) || containsSeq needle t

/-- ASCII lower-casing of one character (model of the case folding done
by `case=False`). -/
def lowerChar (c : Char) : Char :=
  if 65 ≤ c.toNat && c.toNat ≤ 90 then Char.ofNat (c.toNat + 32) else c

/-- Model of pandas `Series.str.contains(pattern, case=False)` on one
string value: case-insensitive substring containment. -/
def icontains (hay pat : String) : Bool :=
  containsSeq (pat.data.map lowerChar) (hay.data.map lowerChar)

/-- One row of a search-result DataFrame.  `key` is the
`MDR_REPORT_KEY` coerced to a string; the name fields carry the
stringified values of the device-name columns. -/
structure Row where
  key : String
  nameConcat : String
  brand : String
  generic : String
  mfr : String
deriving DecidableEq, Repr

/-- Which name columns are present in the result tables (pandas column
membership tests in `apply`). -/
structure Cols where
  hasNameCol : Bool
  hasBrand : Bool
  hasGeneric : Bool
  hasMfr : Bool
deriving DecidableEq, Repr

/-- The keys of a table, in row order. -/
def keysOf (l : List Row) : List String := l.map (·.key)

/-- Model of `df['MDR_REPORT_KEY'].astype(str).isin(ks)` for one row
(set membership of the stringified key). -/
def keyMem (ks : List String) (r : Row) : Bool := decide (r.key ∈ ks)

/-- One exclusion-pattern test on a row, following `apply` step 4:
match against the concatenated name column when it exists, otherwise
against whichever of BRAND_NAME / GENERIC_NAME / MANUFACTURER_D_NAME
is present. -/
def matchesPattern (c : Cols) (p : String) (r : Row) : Bool :=
  if c.hasNameCol then icontains r.nameConcat p
  else
    (c.hasBrand && icontains r.brand p) ||
    (c.hasGeneric && icontains r.generic p) ||
    (c.hasMfr && icontains r.mfr p)

/-- A term of a boolean search expression: a bare string (OR-combined)
or a nested list of strings (AND-combined). -/
inductive Term where
  | single (s : String)
  | group (l : List String)
deriving DecidableEq, Repr

/-- A boolean search expression in PyMAUDE list format. -/
abbrev Criteria := List Term

/-- The override / pattern / criteria state of a
`DeviceSearchStrategy` (metadata fields included so that
serialization can be stated; timestamps are naturals). -/
structure Strategy where
  name : String
  description : String
  version : String
  author : String
  created_at : Nat
  updated_at : Nat
  broad_criteria : Criteria
  narrow_criteria : Criteria
  known_variants : List (List (String × String))
  exclusion_patterns : List String
  inclusion_overrides : List String
  exclusion_overrides : List String
  search_rationale : String
deriving DecidableEq, Repr

/-- Step 4 of `apply`: run the exclusion patterns in order over the
needs-review table, moving matched rows into the excluded accumulator.
Mirrors the Python loop
`excluded_list.append(needs_review[mask]); needs_review = needs_review[~mask]`
followed by `pd.concat(excluded_list)`. -/
def applyPatterns (c : Cols) : List String → List Row → List Row → List Row × List Row
  | [], exc, nr => (exc, nr)
  | p :: ps, exc, nr =>
      applyPatterns c ps
        (exc ++ nr.filter (matchesPattern c p))
        (nr.filter (fun r => ! matchesPattern c p r))

/-- Step 5a of `apply`: move needs-review rows matching
`inclusion_overrides` into the included table (note the
`if len(manual_includes) > 0` guard of the source). -/
def applyInclusion (incOv : List String) (included nr : List Row) :
    List Row × List Row :=
  if incOv = [] then (included, nr)
  else if nr.filter (keyMem incOv) = [] then (included, nr)
  else (included ++ nr.filter (keyMem incOv),
        nr.filter (fun r => ! keyMem incOv r))

/-- Step 5b of `apply`: move rows matching `exclusion_overrides` out of
both the needs-review and the included tables into the excluded table.
Returns `(included, excluded, needs_review)`. -/
def applyExclusion (excOv : List String) (included excluded nr : List Row) :
    List Row × List Row × List Row :=
  if excOv = [] then (included, excluded, nr)
  else
    (if included.filter (keyMem excOv) = [] then included
     else included.filter (fun r => ! keyMem excOv r),
     (if included.filter (keyMem excOv) = [] then
        (if nr.filter (keyMem excOv) = [] then excluded
         else excluded ++ nr.filter (keyMem excOv))
      else
        (if nr.filter (keyMem excOv) = [] then excluded
         else excluded ++ nr.filter (keyMem excOv)) ++
          included.filter (keyMem excOv)),
     if nr.filter (keyMem excOv) = [] then nr
     else nr.filter (fun r => ! keyMem excOv r))

/-- Steps 3–5 of `apply`, given the broad and narrow search results. -/
def applyCore (s : Strategy) (c : Cols) (broad narrow : List Row) :
    List Row × List Row × List Row :=
  let nr0 := broad.filter (fun r => ! keyMem (keysOf narrow) r)
  let pr := applyPatterns c s.exclusion_patterns [] nr0
  let ir := applyInclusion s.inclusion_overrides narrow pr.2
  applyExclusion s.exclusion_overrides ir.1 pr.1 ir.2

/-- `DeviceSearchStrategy.apply`: validates that the criteria are
non-empty, runs the broad and narrow searches against the store `db`
(modelled as a function from criteria to result tables) and resolves
the three output tables.  Returns
`(included, excluded, needs_review)`. -/
def Strategy.apply (s : Strategy) (db : Criteria → List Row) (c : Cols) :
    Except String (List Row × List Row × List Row) :=
  if s.broad_criteria = [] then .error "broad_criteria cannot be empty"
  else if s.narrow_criteria = [] then .error "narrow_criteria cannot be empty"
  else .ok (applyCore s c (db s.broad_criteria) (db s.narrow_criteria))

/-- No row of `a` shares its report key with a row of `b`. -/
def DisjointKeys (a b : List Row) : Prop :=
  ∀ r ∈ a, ∀ r' ∈ b, r.key ≠ r'.key

instance (a b : List Row) : Decidable (DisjointKeys a b) := by
  unfold DisjointKeys; infer_instance

/-- Are all patterns of `ps` non-matching on row `r`? -/
def unmatchedAll (c : Cols) (ps : List String) (r : Row) : Bool :=
  ps.all fun p => ! matchesPattern c p r

/-- First-match partition of the pattern stage, stated directly on the
original needs-review table: for each pattern, in order, the rows it
matches that no earlier pattern (in `prev ++ ps` order) matched. -/
def firstClaimed (c : Cols) (prev : List String) :
    List String → List Row → List Row
  | [], _ => []
  | p :: ps, rows =>
      rows.filter (fun r => matchesPattern c p r && unmatchedAll c prev r) ++
        firstClaimed c (prev ++ [p]) ps rows

/-- `DeviceSearchStrategy.add_manual_decision`: validates the decision,
inserts the key into one override list if absent, removes its first
occurrence from the other list if present (Python `list.remove`), and
stamps `updated_at`. -/
def addManualDecision (s : Strategy) (mdrKey decision : String) (now : Nat) :
    Except String Strategy :=
  if !(decision == "include" || decision == "exclude") then
    .error "decision must be include or exclude"
  else if decision == "include" then
    .ok { s with
      inclusion_overrides :=
        if mdrKey ∈ s.inclusion_overrides then s.inclusion_overrides
        else s.inclusion_overrides ++ [mdrKey],
      exclusion_overrides := s.exclusion_overrides.erase mdrKey,
      updated_at := now }
  else
    .ok { s with
      exclusion_overrides :=
        if mdrKey ∈ s.exclusion_overrides then s.exclusion_overrides
        else s.exclusion_overrides ++ [mdrKey],
      inclusion_overrides := s.inclusion_overrides.erase mdrKey,
      updated_at := now }

/-- Run a sequence of `add_manual_decision` calls; a call that raises
(invalid decision) leaves the strategy unchanged, since the validation
happens before any mutation. -/
def runManualDecisions (s : Strategy) (ops : List (String × String × Nat)) :
    Strategy :=
  ops.foldl
    (fun st op =>
      match addManualDecision st op.1 op.2.1 op.2.2 with
      | .ok st' => st'
      | .error _ => st)
    s

/-- The two override lists are duplicate-free and share no key. -/
def OverridesInv (s : Strategy) : Prop :=
  s.inclusion_overrides.Nodup ∧ s.exclusion_overrides.Nodup ∧
    ∀ k, ¬(k ∈ s.inclusion_overrides ∧ k ∈ s.exclusion_overrides)

/-- Decimal serialization of a timestamp, standing for
`datetime.isoformat` (injective, parsed back exactly by the matching
parser, as the Python pair is at the precision `isoformat` emits). -/
def dateFormat (n : Nat) : String :=
  if n = 0 then "0"
  else String.mk ((Nat.digits 10 n).map Nat.digitChar).reverse

/-- Matching parser, standing for `datetime.fromisoformat`: fails
(`ValueError`) on anything the formatter does not emit. -/
def dateParse (s : String) : Option Nat :=
  if !s.data.isEmpty && s.data.all (fun c => c.isDigit) then
    some (Nat.ofDigits 10 ((s.data.map fun c => c.toNat - 48).reverse))
  else none

/-- One `AdjudicationRecord`. -/
structure AdjRecord where
  mdr_report_key : String
  decision : String
  reason : String
  reviewer : String
  date : Nat
  strategy_version : String
  device_info : String
  search_group : String
deriving DecidableEq, Repr

/-- `AdjudicationLog.add`: validates the decision, then appends one
record per key, all stamped with the call time. -/
def logAdd (records : List AdjRecord) (mdrKeys : List String)
    (decision reason reviewer sv di sg : String) (now : Nat) :
    Except String (List AdjRecord) :=
  if !(decision == "include" || decision == "exclude") then
    .error "decision must be include or exclude"
  else
    .ok (records ++ mdrKeys.map fun k =>
      { mdr_report_key := k, decision := decision, reason := reason,
        reviewer := reviewer, date := now, strategy_version := sv,
        device_info := di, search_group := sg })

/-- One row of the candidate table handed to
`include_remaining` / `exclude_remaining` (`MDR_REPORT_KEY` as string,
plus the optional device-info and `search_group` column values). -/
structure CandRow where
  key : String
  deviceInfo : String
  searchGroup : String
deriving DecidableEq, Repr

/-- The filter step shared by `include_remaining` and
`exclude_remaining`: candidate rows whose key is not the key of any
record of the log, regardless of that record's decision. -/
def remainingRows (records : List AdjRecord) (cands : List CandRow) :
    List CandRow :=
  let decided := records.map (·.mdr_report_key)
  cands.filter fun r => ! decide (r.key ∈ decided)

/-- The record appended for one remaining candidate row.  `useDI` is
whether a `device_info_column` argument was given, `hasDI` / `hasSG`
whether that column / the `search_group` column exist in the table. -/
def remainingRecord (decision reason reviewer sv : String)
    (useDI hasDI hasSG : Bool) (now : Nat) (r : CandRow) : AdjRecord :=
  { mdr_report_key := r.key, decision := decision, reason := reason,
    reviewer := reviewer, date := now, strategy_version := sv,
    device_info := if useDI && hasDI then r.deviceInfo else "",
    search_group := if hasSG then r.searchGroup else "" }

/-- Common body of `include_remaining` / `exclude_remaining`: append
the chosen decision for every not-yet-decided candidate row, returning
the new log and the count appended. -/
def bulkRemaining (decision : String) (records : List AdjRecord)
    (cands : List CandRow) (reason reviewer sv : String)
    (useDI hasDI hasSG : Bool) (now : Nat) : List AdjRecord × Nat :=
  let remaining := remainingRows records cands
  (records ++
      remaining.map (remainingRecord decision reason reviewer sv useDI hasDI hasSG now),
    remaining.length)

/-- `AdjudicationLog.include_remaining`. -/
def includeRemaining (records : List AdjRecord) (cands : List CandRow)
    (reason reviewer sv : String) (useDI hasDI hasSG : Bool) (now : Nat) :
    List AdjRecord × Nat :=
  bulkRemaining "include" records cands reason reviewer sv useDI hasDI hasSG now

/-- `AdjudicationLog.exclude_remaining`. -/
def excludeRemaining (records : List AdjRecord) (cands : List CandRow)
    (reason reviewer sv : String) (useDI hasDI hasSG : Bool) (now : Nat) :
    List AdjRecord × Nat :=
  bulkRemaining "exclude" records cands reason reviewer sv useDI hasDI hasSG now

/-- The CSV header written by `AdjudicationLog.to_csv`. -/
def csvHeader : List String :=
  ["mdr_report_key", "decision", "reason", "reviewer",
   "date", "strategy_version", "device_info", "search_group"]

/-- The CSV data row written for one record. -/
def recordToRow (r : AdjRecord) : List String :=
  [r.mdr_report_key, r.decision, r.reason, r.reviewer,
   dateFormat r.date, r.strategy_version, r.device_info, r.search_group]

/-- `AdjudicationLog.to_csv`, modelled down to the row level (the
`csv` module's quoting of a row of strings is external and lossless). -/
def logToCsv (records : List AdjRecord) : List (List String) :=
  csvHeader :: records.map recordToRow

/-- Column lookup of `csv.DictReader`: pair the header with a data row
and fetch a column value by name. -/
def dictGet : List String → List String → String → Option String
  | h :: hs, v :: vs, name => if h = name then some v else dictGet hs vs name
  | _, _, _ => none

/-- One record parsed by `AdjudicationLog._load_from_csv`: every field
read by name with `''` default; the date parsed with a fall back to
the load time (`datetime.now()`) when missing or malformed. -/
def loadRecord (header row : List String) (now : Nat) : AdjRecord :=
  let get := fun name => (dictGet header row name).getD ""
  { mdr_report_key := get "mdr_report_key", decision := get "decision",
    reason := get "reason", reviewer := get "reviewer",
    date :=
      match dictGet header row "date" with
      | none => now
      | some s => (dateParse s).getD now,
    strategy_version := get "strategy_version",
    device_info := get "device_info", search_group := get "search_group" }

/-- `AdjudicationLog._load_from_csv`, at the row level: the first line
is the header, every further line one record. -/
def loadFromCsv (file : List (List String)) (now : Nat) : List AdjRecord :=
  match file with
  | [] => []
  | header :: rows => rows.map fun row => loadRecord header row now

/-- `AdjudicationLog.get_inclusion_keys` (a Python set of strings). -/
def getInclusionKeys (records : List AdjRecord) : Finset String :=
  ((records.filter fun r => r.decision == "include").map
    (·.mdr_report_key)).toFinset

/-- `AdjudicationLog.get_exclusion_keys`. -/
def getExclusionKeys (records : List AdjRecord) : Finset String :=
  ((records.filter fun r => r.decision == "exclude").map
    (·.mdr_report_key)).toFinset

/-- The dictionary returned by `AdjudicationLog.get_statistics`. -/
structure LogStats where
  total_decisions : Nat
  inclusions : Nat
  exclusions : Nat
  reviewers : List String
  date_range : Option (Nat × Nat)
deriving DecidableEq, Repr

/-- `AdjudicationLog.get_statistics`. -/
def getStatistics (records : List AdjRecord) : LogStats :=
  if records.isEmpty then
    { total_decisions := 0, inclusions := 0, exclusions := 0,
      reviewers := [], date_range := none }
  else
    { total_decisions := records.length,
      inclusions := (records.filter fun r => r.decision == "include").length,
      exclusions := (records.filter fun r => r.decision == "exclude").length,
      reviewers :=
        ((records.map (·.reviewer)).dedup.mergeSort fun a b => a ≤ b),
      date_range :=
        match (records.map (·.date)).min?, (records.map (·.date)).max? with
        | some a, some b => some (a, b)
        | _, _ => none }

/-- The YAML document written by `DeviceSearchStrategy.to_yaml`:
`asdict(self)` with the two timestamps replaced by their ISO strings
(the `yaml` dump/safe_load layer is external and faithful on this
structure). -/
structure StrategyDoc where
  name : String
  description : String
  version : String
  author : String
  created_at : String
  updated_at : String
  broad_criteria : Criteria
  narrow_criteria : Criteria
  known_variants : List (List (String × String))
  exclusion_patterns : List String
  inclusion_overrides : List String
  exclusion_overrides : List String
  search_rationale : String
deriving DecidableEq, Repr

/-- `DeviceSearchStrategy.to_yaml`. -/
def Strategy.toYaml (s : Strategy) : StrategyDoc :=
  { name := s.name, description := s.description, version := s.version,
    author := s.author,
    created_at := dateFormat s.created_at,
    updated_at := dateFormat s.updated_at,
    broad_criteria := s.broad_criteria, narrow_criteria := s.narrow_criteria,
    known_variants := s.known_variants,
    exclusion_patterns := s.exclusion_patterns,
    inclusion_overrides := s.inclusion_overrides,
    exclusion_overrides := s.exclusion_overrides,
    search_rationale := s.search_rationale }

/-- `DeviceSearchStrategy.from_yaml`: parse the two timestamp strings
(`datetime.fromisoformat` raises on malformed input) and rebuild the
dataclass from the document fields. -/
def Strategy.fromYaml (d : StrategyDoc) : Except String Strategy :=
  match dateParse d.created_at, dateParse d.updated_at with
  | some ca, some ua =>
      .ok { name := d.name, description := d.description,
            version := d.version, author := d.author,
            created_at := ca, updated_at := ua,
            broad_criteria := d.broad_criteria,
            narrow_criteria := d.narrow_criteria,
            known_variants := d.known_variants,
            exclusion_patterns := d.exclusion_patterns,
            inclusion_overrides := d.inclusion_overrides,
            exclusion_overrides := d.exclusion_overrides,
            search_rationale := d.search_rationale }
  | _, _ => .error "Invalid isoformat string"

/-- The three decision buckets of one cascade phase. -/
structure PhaseDecisions where
  accepted : List String
  deferred : List String
  rejected : List String
deriving DecidableEq, Repr

/-- The decision buckets of the three phases of a selection group. -/
structure GroupDecisions where
  brand_name : PhaseDecisions
  generic_name : PhaseDecisions
  manufacturer : PhaseDecisions
deriving DecidableEq, Repr

/-- One phase update of `save_and_continue`
(`SelectionWidget._build_multi_deferred_content`): a non-empty
component value currently in the `deferred` bucket is removed from it
(first occurrence, Python `list.remove`) and appended to `accepted`
(`toAccepted = true`) or `rejected`; anything else is left untouched. -/
def movePhase (pd : PhaseDecisions) (v : String) (toAccepted : Bool) :
    PhaseDecisions :=
  if !(v == "") && decide (v ∈ pd.deferred) then
    { accepted := if toAccepted then pd.accepted ++ [v] else pd.accepted,
      deferred := pd.deferred.erase v,
      rejected := if toAccepted then pd.rejected else pd.rejected ++ [v] }
  else pd

/-- Resolution of one multi-deferred (brand, generic, manufacturer)
triple: `accept` / `reject` move the deferred components of the three
phases; any other decision (`defer`) changes nothing. -/
def resolveTriple (g : GroupDecisions) (brand generic mfr decision : String) :
    GroupDecisions :=
  if decision == "accept" then
    { brand_name := movePhase g.brand_name brand true,
      generic_name := movePhase g.generic_name generic true,
      manufacturer := movePhase g.manufacturer mfr true }
  else if decision == "reject" then
    { brand_name := movePhase g.brand_name brand false,
      generic_name := movePhase g.generic_name generic false,
      manufacturer := movePhase g.manufacturer mfr false }
  else g

/-- The loop of `save_and_continue` over the collected per-triple
decisions. -/
def saveAndContinue (g : GroupDecisions)
    (ds : List ((String × String × String) × String)) : GroupDecisions :=
  ds.foldl (fun g kv => resolveTriple g kv.1.1 kv.1.2.1 kv.1.2.2 kv.2) g

/-- One patient sub-record row (`MDR_REPORT_KEY`,
`PATIENT_SEQUENCE_NUMBER`, `SEQUENCE_NUMBER_OUTCOME`; `none` models a
null outcome cell). -/
structure PatientRow where
  key : String
  patientSeq : Nat
  outcome : Option String
deriving DecidableEq, Repr

/-- Split a character list at every semicolon; `cur` holds the
(reversed) characters of the piece being read. -/
def splitSemiAux (cur : List Char) : List Char → List (List Char)
  | [] => [cur.reverse]
  | c :: rest =>
      if c = ';' then cur.reverse :: splitSemiAux [] rest
      else splitSemiAux (c :: cur) rest

/-- Strip the whitespace around a token. -/
def trimChars (l : List Char) : List Char :=
  ((l.dropWhile fun c => c = ' ').reverse.dropWhile fun c => c = ' ').reverse

/-- Modelled from the spec: the per-patient outcome parsing of
`analysis_helpers.count_unique_outcomes_per_report` (the module is not
among the sources at hand; its tests are).  Splits the
semicolon-delimited code list, strips whitespace around each code and
drops empty tokens. -/
def parseCodes (s : String) : List String :=
  ((splitSemiAux [] s.data).map fun cs => String.mk (trimChars cs)).filter
    fun c => !(c == "")

/-- Modelled from the spec: the outcome codes of one patient row; a
missing (null) outcome yields no codes. -/
def outcomeCodes (r : PatientRow) : List String :=
  match r.outcome with
  | none => []
  | some s => parseCodes s

/-- Modelled from the spec: the unique-outcome set
`count_unique_outcomes_per_report` reports for report `k` — the union
of the parsed codes over all of that report's patient rows. -/
def reportOutcomeSet (rows : List PatientRow) (k : String) : Finset String :=
  (((rows.filter fun r => r.key == k).map outcomeCodes).flatten).toFinset

/-- Naive per-patient flattening: the number of patient rows whose
parsed code list contains `code` (the WRONG counting the helper
exists to avoid). -/
def naiveCodeCount (rows : List PatientRow) (code : String) : Nat :=
  (rows.filter fun r => decide (code ∈ outcomeCodes r)).length

/-- Modelled from the spec: the per-report counting — the number of
distinct reports whose unique-outcome set contains `code`. -/
def uniqueCodeCount (rows : List PatientRow) (code : String) : Nat :=
  ((rows.map (·.key)).dedup.filter fun k => code ∈ reportOutcomeSet rows k).length

/-! ## Concrete fixtures for the closed instance theorems -/

/-- A search-result row with the given key and concatenated name. -/
def rowOf (k n : String) : Row := ⟨k, n, "", "", ""⟩

/-- All name columns present. -/
def allCols : Cols := ⟨true, true, true, true⟩

/-- A minimal strategy with non-empty criteria and no patterns or
overrides; instance theorems adjust single fields. -/
def baseStrategy : Strategy :=
  { name := "s", description := "", version := "1.0.0", author := "",
    created_at := 0, updated_at := 0,
    broad_criteria := [Term.single "b"], narrow_criteria := [Term.single "n"],
    known_variants := [], exclusion_patterns := [],
    inclusion_overrides := [], exclusion_overrides := [],
    search_rationale := "" }

/-- A store whose broad search returns two rows describing the same
report (same `MDR_REPORT_KEY`) with different device names, and whose
narrow search returns nothing. -/
def dupKeyDb : Criteria → List Row :=
  fun cr => if cr = [Term.single "b"] then [rowOf "1" "x", rowOf "1" "y"] else []

/-- A store whose broad search returns reports 1 and 2 and whose
narrow search returns report 3 (all keys distinct). -/
def smallDb : Criteria → List Row := fun cr =>
  if cr = [Term.single "b"] then [rowOf "1" "a", rowOf "2" "a"]
  else [rowOf "3" "a"]

/-- `baseStrategy` with one exclusion pattern. -/
def patternStrategy : Strategy :=
  { baseStrategy with exclusion_patterns := ["x"] }

/-- A strategy whose report `"1"` sits in both override lists. -/
def conflictStrategy : Strategy :=
  { baseStrategy with
    inclusion_overrides := ["1"], exclusion_overrides := ["1"] }

/-- The output of `apply` for `conflictStrategy` over `smallDb`. -/
def conflictOut : List Row × List Row × List Row :=
  ([rowOf "3" "a"], [rowOf "1" "a"], [rowOf "2" "a"])

/-- A selection group's decision state with one deferred brand value,
one deferred generic value, and nothing deferred for manufacturer. -/
def mdGroup : GroupDecisions :=
  { brand_name := { accepted := [], deferred := ["bv"], rejected := [] },
    generic_name := { accepted := ["ga"], deferred := ["gv"], rejected := [] },
    manufacturer := { accepted := [], deferred := [], rejected := ["mr"] } }

/-- The crux patient table of the tests: one report with three
patients whose concatenated outcomes are `D`, `D;H`, `D;H;L`. -/
def cruxRows : List PatientRow :=
  [{ key := "1111111", patientSeq := 1, outcome := some "D" },
   { key := "1111111", patientSeq := 2, outcome := some "D;H" },
   { key := "1111111", patientSeq := 3, outcome := some "D;H;L" }]

/-! ## Lemmas about the resolver pipeline -/

theorem keyMem_congr (ks : List String) {r r' : Row} (h : r.key = r'.key) :
    keyMem ks r = keyMem ks r' := by
  simp [keyMem, h]

theorem mem_keysOf {r : Row} {l : List Row} (h : r ∈ l) : r.key ∈ keysOf l :=
  List.mem_map_of_mem _ h

theorem applyPatterns_perm (c : Cols) (ps : List String) (exc nr : List Row) :
    List.Perm ((applyPatterns c ps exc nr).1 ++ (applyPatterns c ps exc nr).2) (exc ++ nr) := by
  induction ps generalizing exc nr with
  | nil => simp [applyPatterns]
  | cons p ps ih =>
      simp only [applyPatterns]
      refine (ih _ _).trans ?_
      rw [List.append_assoc]
      exact List.Perm.append_left exc (List.filter_append_perm _ nr)

theorem disjointKeys_of_nodup {a b : List Row}
    (h : (keysOf (a ++ b)).Nodup) : DisjointKeys a b := by
  intro r hr r' hr' hk
  simp only [keysOf, List.map_append] at h
  rcases List.nodup_append.mp h with ⟨-, -, hdisj⟩
  exact hdisj (List.mem_map_of_mem _ hr) (by rw [hk]; exact List.mem_map_of_mem _ hr')

theorem applyInclusion_facts (incOv : List String) (narrow nr1 exc1 : List Row)
    (hnr1k : ∀ r ∈ nr1, r.key ∉ keysOf narrow)
    (hexc1k : ∀ r ∈ exc1, r.key ∉ keysOf narrow)
    (hexc1nr1 : DisjointKeys exc1 nr1) :
    DisjointKeys (applyInclusion incOv narrow nr1).1 (applyInclusion incOv narrow nr1).2 ∧
    DisjointKeys exc1 (applyInclusion incOv narrow nr1).1 ∧
    DisjointKeys exc1 (applyInclusion incOv narrow nr1).2 ∧
    (∀ r ∈ (applyInclusion incOv narrow nr1).2, r ∈ nr1) := by
  have hbase :
      DisjointKeys narrow nr1 ∧ DisjointKeys exc1 narrow ∧
        DisjointKeys exc1 nr1 ∧ (∀ r ∈ nr1, r ∈ nr1) := by
    refine ⟨?_, ?_, hexc1nr1, fun r hr => hr⟩
    · intro r hr r' hr' hk
      exact hnr1k r' hr' (by rw [← hk]; exact mem_keysOf hr)
    · intro r hr r' hr' hk
      exact hexc1k r hr (by rw [hk]; exact mem_keysOf hr')
  unfold applyInclusion
  split_ifs with h0 hm
  · exact hbase
  · exact hbase
  · refine ⟨?_, ?_, ?_, ?_⟩
    · intro r hr r' hr' hk
      rcases List.mem_append.mp hr with hrn | hrm
      · exact hnr1k r' (List.mem_filter.mp hr').1 (by rw [← hk]; exact mem_keysOf hrn)
      · have h1 : keyMem incOv r = true := (List.mem_filter.mp hrm).2
        have h2 : ¬ keyMem incOv r' = true := by
          have := (List.mem_filter.mp hr').2
          simp only [Bool.not_eq_true'] at this ⊢
          simpa using this
        exact h2 (by rw [← keyMem_congr incOv hk]; exact h1)
    · intro r hr r' hr' hk
      rcases List.mem_append.mp hr' with hrn | hrm
      · exact hexc1k r hr (by rw [hk]; exact mem_keysOf hrn)
      · exact hexc1nr1 r hr r' (List.mem_filter.mp hrm).1 hk
    · intro r hr r' hr' hk
      exact hexc1nr1 r hr r' (List.mem_filter.mp hr').1 hk
    · exact fun r hr => (List.mem_filter.mp hr).1

theorem applyExclusion_fst (excOv : List String)
    (inc2 exc2 nr2 : List Row) (h0 : ¬ excOv = []) :
    (applyExclusion excOv inc2 exc2 nr2).1 =
      if inc2.filter (keyMem excOv) = [] then inc2
      else inc2.filter (fun r => ! keyMem excOv r) := by
  unfold applyExclusion
  rw [if_neg h0]

theorem applyExclusion_snd_fst (excOv : List String)
    (inc2 exc2 nr2 : List Row) (h0 : ¬ excOv = []) :
    (applyExclusion excOv inc2 exc2 nr2).2.1 =
      if inc2.filter (keyMem excOv) = [] then
        (if nr2.filter (keyMem excOv) = [] then exc2
         else exc2 ++ nr2.filter (keyMem excOv))
      else
        (if nr2.filter (keyMem excOv) = [] then exc2
         else exc2 ++ nr2.filter (keyMem excOv)) ++
          inc2.filter (keyMem excOv) := by
  unfold applyExclusion
  rw [if_neg h0]

theorem applyExclusion_snd_snd (excOv : List String)
    (inc2 exc2 nr2 : List Row) (h0 : ¬ excOv = []) :
    (applyExclusion excOv inc2 exc2 nr2).2.2 =
      if nr2.filter (keyMem excOv) = [] then nr2
      else nr2.filter (fun r => ! keyMem excOv r) := by
  unfold applyExclusion
  rw [if_neg h0]

theorem applyExclusion_mem_included (excOv : List String)
    (inc2 exc2 nr2 : List Row) (h0 : ¬ excOv = []) :
    ∀ r ∈ (applyExclusion excOv inc2 exc2 nr2).1,
      r ∈ inc2 ∧ keyMem excOv r = false := by
  rw [applyExclusion_fst excOv inc2 exc2 nr2 h0]
  split_ifs with hmei
  · intro r hr
    refine ⟨hr, ?_⟩
    have := List.filter_eq_nil_iff.mp hmei r hr
    simpa using this
  · intro r hr
    have := List.mem_filter.mp hr
    exact ⟨this.1, by simpa using this.2⟩

theorem applyExclusion_mem_review (excOv : List String)
    (inc2 exc2 nr2 : List Row) (h0 : ¬ excOv = []) :
    ∀ r ∈ (applyExclusion excOv inc2 exc2 nr2).2.2,
      r ∈ nr2 ∧ keyMem excOv r = false := by
  rw [applyExclusion_snd_snd excOv inc2 exc2 nr2 h0]
  split_ifs with hmer
  · intro r hr
    refine ⟨hr, ?_⟩
    have := List.filter_eq_nil_iff.mp hmer r hr
    simpa using this
  · intro r hr
    have := List.mem_filter.mp hr
    exact ⟨this.1, by simpa using this.2⟩

theorem applyExclusion_mem_excluded (excOv : List String)
    (inc2 exc2 nr2 : List Row) (h0 : ¬ excOv = []) :
    ∀ r ∈ (applyExclusion excOv inc2 exc2 nr2).2.1,
      r ∈ exc2 ∨ (r ∈ nr2 ∧ keyMem excOv r = true) ∨
        (r ∈ inc2 ∧ keyMem excOv r = true) := by
  rw [applyExclusion_snd_fst excOv inc2 exc2 nr2 h0]
  split_ifs with hmei hmer hmer <;> intro r hr
  · exact Or.inl hr
  · rcases List.mem_append.mp hr with h | h
    · exact Or.inl h
    · have := List.mem_filter.mp h
      exact Or.inr (Or.inl ⟨this.1, this.2⟩)
  · rcases List.mem_append.mp hr with h | h
    · exact Or.inl h
    · have := List.mem_filter.mp h
      exact Or.inr (Or.inr ⟨this.1, this.2⟩)
  · rcases List.mem_append.mp hr with h | h
    · rcases List.mem_append.mp h with h' | h'
      · exact Or.inl h'
      · have := List.mem_filter.mp h'
        exact Or.inr (Or.inl ⟨this.1, this.2⟩)
    · have := List.mem_filter.mp h
      exact Or.inr (Or.inr ⟨this.1, this.2⟩)

theorem applyExclusion_facts (excOv : List String) (inc2 exc2 nr2 : List Row)
    (h12 : DisjointKeys inc2 exc2) (h13 : DisjointKeys inc2 nr2)
    (h23 : DisjointKeys exc2 nr2) :
    DisjointKeys (applyExclusion excOv inc2 exc2 nr2).1 (applyExclusion excOv inc2 exc2 nr2).2.1 ∧
    DisjointKeys (applyExclusion excOv inc2 exc2 nr2).1 (applyExclusion excOv inc2 exc2 nr2).2.2 ∧
    DisjointKeys (applyExclusion excOv inc2 exc2 nr2).2.1 (applyExclusion excOv inc2 exc2 nr2).2.2 := by
  by_cases h0 : excOv = []
  · unfold applyExclusion
    rw [if_pos h0]
    exact ⟨h12, h13, h23⟩
  · have hI := applyExclusion_mem_included excOv inc2 exc2 nr2 h0
    have hR := applyExclusion_mem_review excOv inc2 exc2 nr2 h0
    have hE := applyExclusion_mem_excluded excOv inc2 exc2 nr2 h0
    refine ⟨?_, ?_, ?_⟩
    · intro r hr r' hr' hk
      obtain ⟨hri, hrf⟩ := hI r hr
      rcases hE r' hr' with h | ⟨hrn, ht⟩ | ⟨hrn, ht⟩
      · exact h12 r hri r' h hk
      · rw [keyMem_congr excOv hk, ht] at hrf; cases hrf
      · rw [keyMem_congr excOv hk, ht] at hrf; cases hrf
    · intro r hr r' hr' hk
      exact h13 r (hI r hr).1 r' (hR r' hr').1 hk
    · intro r hr r' hr' hk
      obtain ⟨hrn', hrf'⟩ := hR r' hr'
      rcases hE r hr with h | ⟨hrn, ht⟩ | ⟨hrn, ht⟩
      · exact h23 r h r' hrn' hk
      · rw [← keyMem_congr excOv hk, ht] at hrf'; cases hrf'
      · rw [← keyMem_congr excOv hk, ht] at hrf'; cases hrf'

theorem DisjointKeys.symm {a b : List Row} (h : DisjointKeys a b) :
    DisjointKeys b a := fun r hr r' hr' hk => h r' hr' r hr hk.symm

theorem apply_ok_elim {s : Strategy} {db : Criteria → List Row} {c : Cols}
    {out : List Row × List Row × List Row}
    (hok : s.apply db c = Except.ok out) :
    out = applyCore s c (db s.broad_criteria) (db s.narrow_criteria) := by
  unfold Strategy.apply at hok
  split_ifs at hok
  all_goals
    first
      | exact Except.noConfusion hok
      | (injection hok with h; exact h.symm)

theorem applyCore_disjoint (s : Strategy) (c : Cols) (broad narrow : List Row)
    (hnodup : (keysOf broad).Nodup) :
    DisjointKeys (applyCore s c broad narrow).1 (applyCore s c broad narrow).2.1 ∧
    DisjointKeys (applyCore s c broad narrow).1 (applyCore s c broad narrow).2.2 ∧
    DisjointKeys (applyCore s c broad narrow).2.1 (applyCore s c broad narrow).2.2 := by
  have hcore : applyCore s c broad narrow =
      applyExclusion s.exclusion_overrides
        (applyInclusion s.inclusion_overrides narrow
          (applyPatterns c s.exclusion_patterns []
            (broad.filter (fun r => ! keyMem (keysOf narrow) r))).2).1
        (applyPatterns c s.exclusion_patterns []
          (broad.filter (fun r => ! keyMem (keysOf narrow) r))).1
        (applyInclusion s.inclusion_overrides narrow
          (applyPatterns c s.exclusion_patterns []
            (broad.filter (fun r => ! keyMem (keysOf narrow) r))).2).2 := rfl
  rw [hcore]
  set nr0 := broad.filter (fun r => ! keyMem (keysOf narrow) r) with hnr0
  set pr := applyPatterns c s.exclusion_patterns [] nr0 with hpr
  set ir := applyInclusion s.inclusion_overrides narrow pr.2 with hir
  have hnr0nodup : (keysOf nr0).Nodup := by
    have hsub : List.Sublist (keysOf nr0) (keysOf broad) :=
      (List.filter_sublist broad).map _
    exact hnodup.sublist hsub
  have hperm := applyPatterns_perm c s.exclusion_patterns [] nr0
  rw [List.nil_append] at hperm
  have hkeysnodup : (keysOf (pr.1 ++ pr.2)).Nodup := by
    have hp : List.Perm (keysOf (pr.1 ++ pr.2)) (keysOf nr0) := hperm.map _
    exact hp.nodup_iff.mpr hnr0nodup
  have hd12 : DisjointKeys pr.1 pr.2 := disjointKeys_of_nodup hkeysnodup
  have hprmem : ∀ r, (r ∈ pr.1 ∨ r ∈ pr.2) → r ∈ nr0 := by
    intro r hr
    exact hperm.mem_iff.mp (List.mem_append.mpr hr)
  have hnotN : ∀ r ∈ nr0, r.key ∉ keysOf narrow := by
    intro r hr hmem
    have h2 := (List.mem_filter.mp hr).2
    simp only [keyMem, Bool.not_eq_true', decide_eq_false_iff_not] at h2
    exact h2 hmem
  have hIfacts := applyInclusion_facts s.inclusion_overrides narrow pr.2 pr.1
    (fun r hr => hnotN r (hprmem r (Or.inr hr)))
    (fun r hr => hnotN r (hprmem r (Or.inl hr)))
    hd12
  exact applyExclusion_facts s.exclusion_overrides ir.1 pr.1 ir.2
    hIfacts.2.1.symm hIfacts.1 hIfacts.2.2.1

theorem applyInclusion_override_facts (incOv : List String)
    (narrow nr1 : List Row) (k : String) (hk : k ∈ incOv) :
    (∀ r ∈ (applyInclusion incOv narrow nr1).2, r.key ≠ k) ∧
    (∀ r ∈ nr1, r.key = k → r ∈ (applyInclusion incOv narrow nr1).1) ∧
    (∀ r ∈ narrow, r ∈ (applyInclusion incOv narrow nr1).1) := by
  have h0 : ¬ incOv = [] := by rintro rfl; exact (List.not_mem_nil k) hk
  unfold applyInclusion
  rw [if_neg h0]
  split_ifs with hm
  · refine ⟨?_, ?_, fun r hr => hr⟩
    · intro r hr hkey
      exact List.filter_eq_nil_iff.mp hm r hr (by simp [keyMem, hkey, hk])
    · intro r hr hkey
      exact absurd (by simp [keyMem, hkey, hk])
        (List.filter_eq_nil_iff.mp hm r hr)
  · refine ⟨?_, ?_, ?_⟩
    · intro r hr hkey
      have hneg := (List.mem_filter.mp hr).2
      have htrue : keyMem incOv r = true := by simp [keyMem, hkey, hk]
      simp [htrue] at hneg
    · intro r hr hkey
      exact List.mem_append.mpr
        (Or.inr (List.mem_filter.mpr ⟨hr, by simp [keyMem, hkey, hk]⟩))
    · intro r hr
      exact List.mem_append.mpr (Or.inl hr)

theorem applyExclusion_override_facts (excOv : List String)
    (inc2 exc2 nr2 : List Row) (k : String) (hk : k ∈ excOv) :
    (∀ r ∈ (applyExclusion excOv inc2 exc2 nr2).1, r.key ≠ k) ∧
    (∀ r ∈ (applyExclusion excOv inc2 exc2 nr2).2.2, r.key ≠ k) ∧
    (∀ r ∈ exc2, r ∈ (applyExclusion excOv inc2 exc2 nr2).2.1) ∧
    (∀ r ∈ inc2, r.key = k → r ∈ (applyExclusion excOv inc2 exc2 nr2).2.1) ∧
    (∀ r ∈ nr2, r.key = k → r ∈ (applyExclusion excOv inc2 exc2 nr2).2.1) := by
  have h0 : ¬ excOv = [] := by rintro rfl; exact (List.not_mem_nil k) hk
  refine ⟨?_, ?_, ?_, ?_, ?_⟩
  · intro r hr hkey
    obtain ⟨-, hf⟩ := applyExclusion_mem_included excOv inc2 exc2 nr2 h0 r hr
    have ht : keyMem excOv r = true := by simp [keyMem, hkey, hk]
    rw [ht] at hf; cases hf
  · intro r hr hkey
    obtain ⟨-, hf⟩ := applyExclusion_mem_review excOv inc2 exc2 nr2 h0 r hr
    have ht : keyMem excOv r = true := by simp [keyMem, hkey, hk]
    rw [ht] at hf; cases hf
  · intro r hr
    rw [applyExclusion_snd_fst excOv inc2 exc2 nr2 h0]
    split_ifs with h1 h2 h2
    · exact hr
    · exact List.mem_append.mpr (Or.inl hr)
    · exact List.mem_append.mpr (Or.inl hr)
    · exact List.mem_append.mpr (Or.inl (List.mem_append.mpr (Or.inl hr)))
  · intro r hr hkey
    rw [applyExclusion_snd_fst excOv inc2 exc2 nr2 h0]
    have hmei : r ∈ inc2.filter (keyMem excOv) :=
      List.mem_filter.mpr ⟨hr, by simp [keyMem, hkey, hk]⟩
    split_ifs with h1 h2 h2
    · rw [h1] at hmei; exact absurd hmei (List.not_mem_nil r)
    · rw [h1] at hmei; exact absurd hmei (List.not_mem_nil r)
    · exact List.mem_append.mpr (Or.inr hmei)
    · exact List.mem_append.mpr (Or.inr hmei)
  · intro r hr hkey
    rw [applyExclusion_snd_fst excOv inc2 exc2 nr2 h0]
    have hmer : r ∈ nr2.filter (keyMem excOv) :=
      List.mem_filter.mpr ⟨hr, by simp [keyMem, hkey, hk]⟩
    split_ifs with h1 h2 h2
    · rw [h2] at hmer; exact absurd hmer (List.not_mem_nil r)
    · exact List.mem_append.mpr (Or.inr hmer)
    · rw [h2] at hmer; exact absurd hmer (List.not_mem_nil r)
    · exact List.mem_append.mpr
        (Or.inl (List.mem_append.mpr (Or.inr hmer)))

theorem applyCore_override (s : Strategy) (c : Cols) (broad narrow : List Row)
    (k : String) (hki : k ∈ s.inclusion_overrides)
    (hke : k ∈ s.exclusion_overrides) :
    (∀ r ∈ (applyCore s c broad narrow).1, r.key ≠ k) ∧
    (∀ r ∈ (applyCore s c broad narrow).2.2, r.key ≠ k) ∧
    (∀ r ∈ narrow, r.key = k → r ∈ (applyCore s c broad narrow).2.1) ∧
    (∀ r ∈ broad.filter (fun r => ! keyMem (keysOf narrow) r),
        r.key = k → r ∈ (applyCore s c broad narrow).2.1) := by
  have hcore : applyCore s c broad narrow =
      applyExclusion s.exclusion_overrides
        (applyInclusion s.inclusion_overrides narrow
          (applyPatterns c s.exclusion_patterns []
            (broad.filter (fun r => ! keyMem (keysOf narrow) r))).2).1
        (applyPatterns c s.exclusion_patterns []
          (broad.filter (fun r => ! keyMem (keysOf narrow) r))).1
        (applyInclusion s.inclusion_overrides narrow
          (applyPatterns c s.exclusion_patterns []
            (broad.filter (fun r => ! keyMem (keysOf narrow) r))).2).2 := rfl
  rw [hcore]
  set nr0 := broad.filter (fun r => ! keyMem (keysOf narrow) r) with hnr0
  set pr := applyPatterns c s.exclusion_patterns [] nr0 with hpr
  set ir := applyInclusion s.inclusion_overrides narrow pr.2 with hir
  have hperm := applyPatterns_perm c s.exclusion_patterns [] nr0
  rw [List.nil_append] at hperm
  have hIf := applyInclusion_override_facts s.inclusion_overrides narrow pr.2 k hki
  have hEf := applyExclusion_override_facts s.exclusion_overrides ir.1 pr.1 ir.2 k hke
  refine ⟨hEf.1, hEf.2.1, ?_, ?_⟩
  · intro r hr hkey
    exact hEf.2.2.2.1 r (hIf.2.2 r hr) hkey
  · intro r hr hkey
    have hr' : r ∈ pr.1 ++ pr.2 := hperm.mem_iff.mpr hr
    rcases List.mem_append.mp hr' with h | h
    · exact hEf.2.2.1 r h
    · exact hEf.2.2.2.1 r (hIf.2.1 r h hkey) hkey

/-- C2: when a report identifier sits in both override lists, `apply`
puts every row carrying it — whether from the narrow search or from
the broad-minus-narrow review set — into the excluded output, and into
neither included nor needs-review: exclusion overrides take
precedence. -/
theorem exclusion_override_precedence (s : Strategy)
    (db : Criteria → List Row) (c : Cols) (k : String)
    (out : List Row × List Row × List Row)
    (hok : s.apply db c = Except.ok out)
    (hki : k ∈ s.inclusion_overrides) (hke : k ∈ s.exclusion_overrides) :
    (∀ r ∈ out.1, r.key ≠ k) ∧ (∀ r ∈ out.2.2, r.key ≠ k) ∧
    (∀ r ∈ db s.narrow_criteria, r.key = k → r ∈ out.2.1) ∧
    (∀ r ∈ (db s.broad_criteria).filter
        (fun r => ! keyMem (keysOf (db s.narrow_criteria)) r),
      r.key = k → r ∈ out.2.1) := by
  rw [apply_ok_elim hok]
  exact applyCore_override s c _ _ k hki hke

/-- C2 witness: the precedence theorem applied to a concrete strategy
with `"1"` in both override lists. -/
theorem exclusion_override_precedence_witness :
    (Strategy.apply conflictStrategy smallDb allCols = Except.ok conflictOut ∧
      "1" ∈ conflictStrategy.inclusion_overrides ∧
      "1" ∈ conflictStrategy.exclusion_overrides) ∧
    ((∀ r ∈ conflictOut.1, r.key ≠ "1") ∧
      (∀ r ∈ conflictOut.2.2, r.key ≠ "1") ∧
      (∀ r ∈ smallDb conflictStrategy.narrow_criteria,
        r.key = "1" → r ∈ conflictOut.2.1) ∧
      (∀ r ∈ (smallDb conflictStrategy.broad_criteria).filter
          (fun r => ! keyMem (keysOf (smallDb conflictStrategy.narrow_criteria)) r),
        r.key = "1" → r ∈ conflictOut.2.1)) :=
  ⟨⟨by rfl, by decide, by decide⟩,
    exclusion_override_precedence conflictStrategy smallDb allCols "1"
      conflictOut (by rfl) (by decide) (by decide)⟩

theorem applyPatterns_firstClaimed (c : Cols) (ps : List String) :
    ∀ (prev : List String) (exc rows : List Row),
    applyPatterns c ps exc (rows.filter (unmatchedAll c prev)) =
      (exc ++ firstClaimed c prev ps rows,
       rows.filter (unmatchedAll c (prev ++ ps))) := by
  induction ps with
  | nil => intro prev exc rows; simp [applyPatterns, firstClaimed]
  | cons p ps ih =>
      intro prev exc rows
      simp only [applyPatterns, firstClaimed]
      have hConj : (rows.filter (unmatchedAll c prev)).filter (matchesPattern c p) =
          rows.filter (fun r => matchesPattern c p r && unmatchedAll c prev r) := by
        rw [List.filter_filter]
      have hRest : (rows.filter (unmatchedAll c prev)).filter
            (fun r => ! matchesPattern c p r) =
          rows.filter (unmatchedAll c (prev ++ [p])) := by
        rw [List.filter_filter]
        apply List.filter_congr
        intro r _
        simp [unmatchedAll, List.all_append, Bool.and_comm]
      rw [hConj, hRest, ih (prev ++ [p]) (exc ++ _) rows]
      refine Prod.ext ?_ ?_
      · simp [List.append_assoc]
      · have hl : (prev ++ [p]) ++ ps = prev ++ p :: ps := by simp
        rw [hl]

theorem applyCore_no_overrides (s : Strategy) (c : Cols)
    (broad narrow : List Row)
    (hio : s.inclusion_overrides = []) (heo : s.exclusion_overrides = []) :
    applyCore s c broad narrow =
      (narrow,
       (applyPatterns c s.exclusion_patterns []
         (broad.filter (fun r => ! keyMem (keysOf narrow) r))).1,
       (applyPatterns c s.exclusion_patterns []
         (broad.filter (fun r => ! keyMem (keysOf narrow) r))).2) := by
  have h : applyCore s c broad narrow =
      applyExclusion s.exclusion_overrides
        (applyInclusion s.inclusion_overrides narrow
          (applyPatterns c s.exclusion_patterns []
            (broad.filter (fun r => ! keyMem (keysOf narrow) r))).2).1
        (applyPatterns c s.exclusion_patterns []
          (broad.filter (fun r => ! keyMem (keysOf narrow) r))).1
        (applyInclusion s.inclusion_overrides narrow
          (applyPatterns c s.exclusion_patterns []
            (broad.filter (fun r => ! keyMem (keysOf narrow) r))).2).2 := rfl
  rw [h, hio, heo]
  simp [applyInclusion, applyExclusion]

/-- C5: exclusion patterns are applied to the needs-review rows in the
order given; each row is claimed by its FIRST matching pattern (stated
against the original review table, so a row removed by an earlier
pattern is never matched again by a later one), the surviving
needs-review rows are exactly those matching no pattern, and every
removed row lands in `excluded` exactly once
(`|excluded| + |needs_review| = |broad − narrow|`).  Stated for a
strategy with no overrides so the outputs are the pattern stage's. -/
theorem exclusion_patterns_first_match (s : Strategy)
    (db : Criteria → List Row) (c : Cols)
    (out : List Row × List Row × List Row)
    (hio : s.inclusion_overrides = []) (heo : s.exclusion_overrides = [])
    (hok : s.apply db c = Except.ok out) :
    out.1 = db s.narrow_criteria ∧
    out.2.1 = firstClaimed c [] s.exclusion_patterns
      ((db s.broad_criteria).filter
        (fun r => ! keyMem (keysOf (db s.narrow_criteria)) r)) ∧
    out.2.2 = ((db s.broad_criteria).filter
        (fun r => ! keyMem (keysOf (db s.narrow_criteria)) r)).filter
      (unmatchedAll c s.exclusion_patterns) ∧
    out.2.1.length + out.2.2.length =
      ((db s.broad_criteria).filter
        (fun r => ! keyMem (keysOf (db s.narrow_criteria)) r)).length := by
  rw [apply_ok_elim hok, applyCore_no_overrides s c _ _ hio heo]
  set nr0 := (db s.broad_criteria).filter
    (fun r => ! keyMem (keysOf (db s.narrow_criteria)) r) with hnr0
  have hnil : nr0.filter (unmatchedAll c []) = nr0 :=
    List.filter_eq_self.mpr fun r _ => by simp [unmatchedAll]
  have hchar := applyPatterns_firstClaimed c s.exclusion_patterns [] [] nr0
  rw [hnil] at hchar
  simp only [List.nil_append] at hchar
  have hperm := applyPatterns_perm c s.exclusion_patterns [] nr0
  rw [List.nil_append] at hperm
  refine ⟨rfl, ?_, ?_, ?_⟩
  · rw [hchar]
  · rw [hchar]
  · have hlen := hperm.length_eq
    rw [List.length_append] at hlen
    exact hlen

/-- C5 witness: the first-match theorem applied to a concrete strategy
with one pattern over a store whose review set has a matching and a
non-matching row. -/
theorem exclusion_patterns_first_match_witness :
    (patternStrategy.inclusion_overrides = [] ∧
      patternStrategy.exclusion_overrides = [] ∧
      Strategy.apply patternStrategy dupKeyDb allCols =
        Except.ok ([], [rowOf "1" "x"], [rowOf "1" "y"])) ∧
    (([] : List Row) = dupKeyDb patternStrategy.narrow_criteria ∧
      [rowOf "1" "x"] = firstClaimed allCols [] patternStrategy.exclusion_patterns
        ((dupKeyDb patternStrategy.broad_criteria).filter
          (fun r => ! keyMem (keysOf (dupKeyDb patternStrategy.narrow_criteria)) r)) ∧
      [rowOf "1" "y"] = ((dupKeyDb patternStrategy.broad_criteria).filter
          (fun r => ! keyMem (keysOf (dupKeyDb patternStrategy.narrow_criteria)) r)).filter
        (unmatchedAll allCols patternStrategy.exclusion_patterns) ∧
      ([rowOf "1" "x"] : List Row).length + ([rowOf "1" "y"] : List Row).length =
        ((dupKeyDb patternStrategy.broad_criteria).filter
          (fun r => ! keyMem (keysOf (dupKeyDb patternStrategy.narrow_criteria)) r)).length) :=
  ⟨⟨rfl, rfl, by rfl⟩,
    exclusion_patterns_first_match patternStrategy dupKeyDb allCols
      ([], [rowOf "1" "x"], [rowOf "1" "y"]) rfl rfl (by rfl)⟩

theorem digitChar_isDigit {d : Nat} (h : d < 10) :
    (Nat.digitChar d).isDigit = true := by
  interval_cases d <;> decide

theorem digitChar_val {d : Nat} (h : d < 10) :
    (Nat.digitChar d).toNat - 48 = d := by
  interval_cases d <;> decide

theorem dateParse_dateFormat (n : Nat) : dateParse (dateFormat n) = some n := by
  by_cases h0 : n = 0
  · subst h0; rfl
  · have hne : Nat.digits 10 n ≠ [] := Nat.digits_ne_nil_iff_ne_zero.mpr h0
    have hlt : ∀ d ∈ Nat.digits 10 n, d < 10 := fun d hd =>
      Nat.digits_lt_base (by norm_num) hd
    unfold dateFormat dateParse
    rw [if_neg h0]
    have hdata : (String.mk ((Nat.digits 10 n).map Nat.digitChar).reverse).data =
        ((Nat.digits 10 n).map Nat.digitChar).reverse := rfl
    rw [hdata]
    have hempty : (((Nat.digits 10 n).map Nat.digitChar).reverse).isEmpty = false := by
      simp [List.isEmpty_iff, hne]
    have hall : (((Nat.digits 10 n).map Nat.digitChar).reverse).all
        (fun c => c.isDigit) = true := by
      rw [List.all_eq_true]
      intro c hc
      rw [List.mem_reverse] at hc
      obtain ⟨d, hd, rfl⟩ := List.mem_map.mp hc
      exact digitChar_isDigit (hlt d hd)
    simp only [hempty, hall, Bool.not_false, Bool.and_self, if_true]
    congr 1
    rw [List.map_reverse, List.reverse_reverse, List.map_map]
    have hid : ((Nat.digits 10 n).map ((fun c => c.toNat - 48) ∘ Nat.digitChar)) =
        Nat.digits 10 n := by
      have hc : ∀ d ∈ Nat.digits 10 n,
          ((fun c => c.toNat - 48) ∘ Nat.digitChar) d = d := fun d hd =>
        digitChar_val (hlt d hd)
      rw [List.map_congr_left hc, List.map_id']
    rw [hid, Nat.ofDigits_digits]

theorem remainingRows_after_bulk (d : String) (records : List AdjRecord)
    (cands : List CandRow) (reason reviewer sv : String)
    (useDI hasDI hasSG : Bool) (now : Nat) :
    remainingRows
      (bulkRemaining d records cands reason reviewer sv useDI hasDI hasSG now).1
      cands = [] := by
  apply List.filter_eq_nil_iff.mpr
  intro r hr
  simp only [Bool.not_eq_true', decide_eq_false_iff_not, not_not]
  show r.key ∈ (records ++
      (remainingRows records cands).map
        (remainingRecord d reason reviewer sv useDI hasDI hasSG now)).map
    (·.mdr_report_key)
  rw [List.map_append, List.mem_append]
  by_cases hk : r.key ∈ records.map (·.mdr_report_key)
  · exact Or.inl hk
  · right
    have hrP : r ∈ remainingRows records cands := by
      apply List.mem_filter.mpr
      exact ⟨hr, by simp [hk]⟩
    exact List.mem_map.mpr
      ⟨remainingRecord d reason reviewer sv useDI hasDI hasSG now r,
        List.mem_map.mpr ⟨r, hrP, rfl⟩, rfl⟩

/-- C4: `include_remaining` / `exclude_remaining` append exactly one
record per candidate row whose key is absent from the log's keys
(whatever the decision of the existing records) and return the count
appended; a second call with the same candidate table appends nothing
and returns 0. -/
theorem remaining_methods_append_undecided (records : List AdjRecord)
    (cands : List CandRow) (r1 v1 s1 r2 v2 s2 : String)
    (u1 d1 g1 u2 d2 g2 : Bool) (n1 n2 : Nat) :
    (includeRemaining records cands r1 v1 s1 u1 d1 g1 n1).1 =
      records ++ (cands.filter (fun r =>
        ! decide (r.key ∈ records.map (·.mdr_report_key)))).map
          (remainingRecord "include" r1 v1 s1 u1 d1 g1 n1) ∧
    (includeRemaining records cands r1 v1 s1 u1 d1 g1 n1).2 =
      (cands.filter (fun r =>
        ! decide (r.key ∈ records.map (·.mdr_report_key)))).length ∧
    (excludeRemaining records cands r1 v1 s1 u1 d1 g1 n1).1 =
      records ++ (cands.filter (fun r =>
        ! decide (r.key ∈ records.map (·.mdr_report_key)))).map
          (remainingRecord "exclude" r1 v1 s1 u1 d1 g1 n1) ∧
    (excludeRemaining records cands r1 v1 s1 u1 d1 g1 n1).2 =
      (cands.filter (fun r =>
        ! decide (r.key ∈ records.map (·.mdr_report_key)))).length ∧
    (includeRemaining (includeRemaining records cands r1 v1 s1 u1 d1 g1 n1).1
        cands r2 v2 s2 u2 d2 g2 n2).2 = 0 ∧
    (includeRemaining (includeRemaining records cands r1 v1 s1 u1 d1 g1 n1).1
        cands r2 v2 s2 u2 d2 g2 n2).1 =
      (includeRemaining records cands r1 v1 s1 u1 d1 g1 n1).1 ∧
    (excludeRemaining (excludeRemaining records cands r1 v1 s1 u1 d1 g1 n1).1
        cands r2 v2 s2 u2 d2 g2 n2).2 = 0 ∧
    (excludeRemaining (excludeRemaining records cands r1 v1 s1 u1 d1 g1 n1).1
        cands r2 v2 s2 u2 d2 g2 n2).1 =
      (excludeRemaining records cands r1 v1 s1 u1 d1 g1 n1).1 := by
  have hinc : remainingRows
      (includeRemaining records cands r1 v1 s1 u1 d1 g1 n1).1 cands = [] :=
    remainingRows_after_bulk "include" records cands r1 v1 s1 u1 d1 g1 n1
  have hexc : remainingRows
      (excludeRemaining records cands r1 v1 s1 u1 d1 g1 n1).1 cands = [] :=
    remainingRows_after_bulk "exclude" records cands r1 v1 s1 u1 d1 g1 n1
  refine ⟨rfl, rfl, rfl, rfl, ?_, ?_, ?_, ?_⟩
  · show (remainingRows (includeRemaining records cands r1 v1 s1 u1 d1 g1 n1).1
        cands).length = 0
    rw [hinc]
    rfl
  · show (includeRemaining records cands r1 v1 s1 u1 d1 g1 n1).1 ++
        (remainingRows (includeRemaining records cands r1 v1 s1 u1 d1 g1 n1).1
          cands).map (remainingRecord "include" r2 v2 s2 u2 d2 g2 n2) =
      (includeRemaining records cands r1 v1 s1 u1 d1 g1 n1).1
    rw [hinc]
    simp
  · show (remainingRows (excludeRemaining records cands r1 v1 s1 u1 d1 g1 n1).1
        cands).length = 0
    rw [hexc]
    rfl
  · show (excludeRemaining records cands r1 v1 s1 u1 d1 g1 n1).1 ++
        (remainingRows (excludeRemaining records cands r1 v1 s1 u1 d1 g1 n1).1
          cands).map (remainingRecord "exclude" r2 v2 s2 u2 d2 g2 n2) =
      (excludeRemaining records cands r1 v1 s1 u1 d1 g1 n1).1
    rw [hexc]
    simp

theorem loadRecord_recordToRow (r : AdjRecord) (now : Nat) :
    loadRecord csvHeader (recordToRow r) now = r := by
  have hd := dateParse_dateFormat r.date
  simp [loadRecord, dictGet, csvHeader, recordToRow, hd]

/-- C6: writing an adjudication log with `to_csv` and loading the file
back with `_load_from_csv` reproduces every record — key, decision,
reason, reviewer, strategy_version, device_info, search_group, and the
timestamp (the ISO formatter/parser pair is mutually inverse) — in
order, hence also the record count. -/
theorem adjudication_csv_roundtrip (records : List AdjRecord) (now : Nat) :
    loadFromCsv (logToCsv records) now = records := by
  show (records.map recordToRow).map (fun row => loadRecord csvHeader row now) =
    records
  rw [List.map_map]
  have h : ∀ r ∈ records,
      ((fun row => loadRecord csvHeader row now) ∘ recordToRow) r = r :=
    fun r _ => loadRecord_recordToRow r now
  rw [List.map_congr_left h, List.map_id']

/-- C7: `from_yaml` after `to_yaml` reproduces the strategy exactly:
`broad_criteria`, `narrow_criteria`, `exclusion_patterns` and
`search_rationale` verbatim, and every other field too (the timestamp
codec is mutually inverse, so not even precision is lost here). -/
theorem strategy_yaml_roundtrip (s : Strategy) :
    Strategy.fromYaml (Strategy.toYaml s) = Except.ok s := by
  simp [Strategy.toYaml, Strategy.fromYaml, dateParse_dateFormat]

theorem addManualDecision_preserves (t : Strategy) (k d : String) (now : Nat)
    (hinv : OverridesInv t) {t' : Strategy}
    (h : addManualDecision t k d now = Except.ok t') : OverridesInv t' := by
  obtain ⟨hni, hne, hdisj⟩ := hinv
  unfold addManualDecision at h
  by_cases h1 : (!(d == "include" || d == "exclude")) = true
  · rw [if_pos h1] at h
    exact Except.noConfusion h
  rw [if_neg h1] at h
  by_cases h2 : (d == "include") = true
  · rw [if_pos h2] at h
    injection h with h'
    subst h'
    refine ⟨?_, hne.erase k, ?_⟩
    · dsimp only
      split_ifs with hmem
      · exact hni
      · rw [List.nodup_append]
        exact ⟨hni, List.nodup_singleton k,
          fun x hx hmem1 => hmem (by rwa [List.mem_singleton.mp hmem1] at hx)⟩
    · intro k' ⟨hk1, hk2⟩
      dsimp only at hk1 hk2
      have hk2' := (List.Nodup.mem_erase_iff hne).mp hk2
      split_ifs at hk1 with hmem
      · exact hdisj k' ⟨hk1, hk2'.2⟩
      · rcases List.mem_append.mp hk1 with hl | hl
        · exact hdisj k' ⟨hl, hk2'.2⟩
        · exact hk2'.1 (List.mem_singleton.mp hl)
  · rw [if_neg h2] at h
    injection h with h'
    subst h'
    refine ⟨hni.erase k, ?_, ?_⟩
    · dsimp only
      split_ifs with hmem
      · exact hne
      · rw [List.nodup_append]
        exact ⟨hne, List.nodup_singleton k,
          fun x hx hmem1 => hmem (by rwa [List.mem_singleton.mp hmem1] at hx)⟩
    · intro k' ⟨hk1, hk2⟩
      dsimp only at hk1 hk2
      have hk1' := (List.Nodup.mem_erase_iff hni).mp hk1
      split_ifs at hk2 with hmem
      · exact hdisj k' ⟨hk1'.2, hk2⟩
      · rcases List.mem_append.mp hk2 with hl | hl
        · exact hdisj k' ⟨hk1'.2, hl⟩
        · exact hk1'.1 (List.mem_singleton.mp hl)

theorem runManualDecisions_inv (ops : List (String × String × Nat)) :
    ∀ (s : Strategy), OverridesInv s → OverridesInv (runManualDecisions s ops) := by
  induction ops with
  | nil => intro s hinv; exact hinv
  | cons op ops ih =>
      intro s hinv
      show OverridesInv (List.foldl _ s (op :: ops))
      rw [List.foldl_cons]
      cases haddm : addManualDecision s op.1 op.2.1 op.2.2 with
      | ok s' =>
          exact ih s' (addManualDecision_preserves s op.1 op.2.1 op.2.2 hinv haddm)
      | error e =>
          exact ih s hinv

/-- C9: starting from disjoint, duplicate-free override lists, any
sequence of `add_manual_decision` calls keeps the two lists
duplicate-free and disjoint, and every successful call stamps
`updated_at` with the call time. -/
theorem manual_decisions_invariant (s : Strategy)
    (ops : List (String × String × Nat)) (k d : String) (now : Nat)
    (s' : Strategy) (hinv : OverridesInv s)
    (hcall : addManualDecision s k d now = Except.ok s') :
    OverridesInv (runManualDecisions s ops) ∧ s'.updated_at = now := by
  refine ⟨runManualDecisions_inv ops s hinv, ?_⟩
  unfold addManualDecision at hcall
  by_cases h1 : (!(d == "include" || d == "exclude")) = true
  · rw [if_pos h1] at hcall
    exact Except.noConfusion hcall
  rw [if_neg h1] at hcall
  by_cases h2 : (d == "include") = true
  · rw [if_pos h2] at hcall
    injection hcall with h'
    subst h'
    rfl
  · rw [if_neg h2] at hcall
    injection hcall with h'
    subst h'
    rfl

/-- C9 witness: the invariant theorem applied to the empty-override
base strategy, a two-step decision sequence flipping report 1 from
include to exclude, and one concrete successful call. -/
theorem manual_decisions_invariant_witness :
    (OverridesInv baseStrategy ∧
      addManualDecision baseStrategy "1" "include" 5 =
        Except.ok { baseStrategy with
          inclusion_overrides := ["1"], updated_at := 5 }) ∧
    (OverridesInv (runManualDecisions baseStrategy
        [("1", "include", 5), ("1", "exclude", 6)]) ∧
      ({ baseStrategy with
          inclusion_overrides := ["1"], updated_at := 5 } : Strategy).updated_at = 5) :=
  ⟨⟨⟨List.nodup_nil, List.nodup_nil, fun k hk => (List.not_mem_nil k) hk.1⟩,
      by rfl⟩,
    manual_decisions_invariant baseStrategy
      [("1", "include", 5), ("1", "exclude", 6)] "1" "include" 5
      { baseStrategy with inclusion_overrides := ["1"], updated_at := 5 }
      ⟨List.nodup_nil, List.nodup_nil, fun k hk => (List.not_mem_nil k) hk.1⟩
      (by rfl)⟩

theorem movePhase_move (pd : PhaseDecisions) (v : String) (t : Bool)
    (hnd : pd.deferred.Nodup) (hv : ¬ v = "") (hmem : v ∈ pd.deferred) :
    (movePhase pd v t).deferred = pd.deferred.erase v ∧
    v ∉ (movePhase pd v t).deferred ∧
    (movePhase pd v t).accepted =
      (if t then pd.accepted ++ [v] else pd.accepted) ∧
    (movePhase pd v t).rejected =
      (if t then pd.rejected else pd.rejected ++ [v]) := by
  have hcond : (!(v == "") && decide (v ∈ pd.deferred)) = true := by
    simp [hv, hmem]
  unfold movePhase
  rw [if_pos hcond]
  refine ⟨rfl, ?_, rfl, rfl⟩
  intro hvmem
  exact ((List.Nodup.mem_erase_iff hnd).mp hvmem).1 rfl

theorem movePhase_skip (pd : PhaseDecisions) (v : String) (t : Bool)
    (h : ¬(¬ v = "" ∧ v ∈ pd.deferred)) : movePhase pd v t = pd := by
  unfold movePhase
  refine if_neg fun hcond => h ?_
  simpa using hcond

theorem resolveTriple_accept (g : GroupDecisions) (b gen m : String) :
    resolveTriple g b gen m "accept" =
      { brand_name := movePhase g.brand_name b true,
        generic_name := movePhase g.generic_name gen true,
        manufacturer := movePhase g.manufacturer m true } := rfl

theorem resolveTriple_reject (g : GroupDecisions) (b gen m : String) :
    resolveTriple g b gen m "reject" =
      { brand_name := movePhase g.brand_name b false,
        generic_name := movePhase g.generic_name gen false,
        manufacturer := movePhase g.manufacturer m false } := rfl

/-- C8: resolving one multi-deferred (brand, generic, manufacturer)
triple as accept or reject moves, in each phase, the component value
that currently sits in that phase's `deferred` bucket (non-empty
values only) out of `deferred` and appends it to that phase's
`accepted` (on accept) or `rejected` (on reject) bucket, leaving the
third bucket unchanged; a component not currently deferred (or empty)
leaves its phase untouched; a triple left as `defer` changes no
buckets. -/
theorem multi_deferred_resolution (g : GroupDecisions) (b gen m d : String)
    (hb : g.brand_name.deferred.Nodup) (hgen : g.generic_name.deferred.Nodup)
    (hm : g.manufacturer.deferred.Nodup)
    (hd : d = "accept" ∨ d = "reject") :
    resolveTriple g b gen m "defer" = g ∧
    ((¬ b = "" ∧ b ∈ g.brand_name.deferred) →
      b ∉ (resolveTriple g b gen m d).brand_name.deferred ∧
      (resolveTriple g b gen m d).brand_name.accepted =
        (if d = "accept" then g.brand_name.accepted ++ [b]
         else g.brand_name.accepted) ∧
      (resolveTriple g b gen m d).brand_name.rejected =
        (if d = "accept" then g.brand_name.rejected
         else g.brand_name.rejected ++ [b])) ∧
    (¬(¬ b = "" ∧ b ∈ g.brand_name.deferred) →
      (resolveTriple g b gen m d).brand_name = g.brand_name) ∧
    ((¬ gen = "" ∧ gen ∈ g.generic_name.deferred) →
      gen ∉ (resolveTriple g b gen m d).generic_name.deferred ∧
      (resolveTriple g b gen m d).generic_name.accepted =
        (if d = "accept" then g.generic_name.accepted ++ [gen]
         else g.generic_name.accepted) ∧
      (resolveTriple g b gen m d).generic_name.rejected =
        (if d = "accept" then g.generic_name.rejected
         else g.generic_name.rejected ++ [gen])) ∧
    (¬(¬ gen = "" ∧ gen ∈ g.generic_name.deferred) →
      (resolveTriple g b gen m d).generic_name = g.generic_name) ∧
    ((¬ m = "" ∧ m ∈ g.manufacturer.deferred) →
      m ∉ (resolveTriple g b gen m d).manufacturer.deferred ∧
      (resolveTriple g b gen m d).manufacturer.accepted =
        (if d = "accept" then g.manufacturer.accepted ++ [m]
         else g.manufacturer.accepted) ∧
      (resolveTriple g b gen m d).manufacturer.rejected =
        (if d = "accept" then g.manufacturer.rejected
         else g.manufacturer.rejected ++ [m])) ∧
    (¬(¬ m = "" ∧ m ∈ g.manufacturer.deferred) →
      (resolveTriple g b gen m d).manufacturer = g.manufacturer) := by
  rcases hd with rfl | rfl
  · rw [resolveTriple_accept]
    refine ⟨rfl, ?_, ?_, ?_, ?_, ?_, ?_⟩
    · rintro ⟨hv, hmem⟩
      obtain ⟨-, h1, h2, h3⟩ := movePhase_move g.brand_name b true hb hv hmem
      simp only [if_pos rfl, if_true] at h2 h3 ⊢
      exact ⟨h1, h2, h3⟩
    · intro h
      exact movePhase_skip g.brand_name b true h
    · rintro ⟨hv, hmem⟩
      obtain ⟨-, h1, h2, h3⟩ := movePhase_move g.generic_name gen true hgen hv hmem
      simp only [if_pos rfl, if_true] at h2 h3 ⊢
      exact ⟨h1, h2, h3⟩
    · intro h
      exact movePhase_skip g.generic_name gen true h
    · rintro ⟨hv, hmem⟩
      obtain ⟨-, h1, h2, h3⟩ := movePhase_move g.manufacturer m true hm hv hmem
      simp only [if_pos rfl, if_true] at h2 h3 ⊢
      exact ⟨h1, h2, h3⟩
    · intro h
      exact movePhase_skip g.manufacturer m true h
  · rw [resolveTriple_reject]
    have hne : ¬ ("reject" = "accept") := by decide
    refine ⟨rfl, ?_, ?_, ?_, ?_, ?_, ?_⟩
    · rintro ⟨hv, hmem⟩
      obtain ⟨-, h1, h2, h3⟩ := movePhase_move g.brand_name b false hb hv hmem
      simp only [if_neg hne, Bool.if_false_left, if_false] at h2 h3 ⊢
      simp only [if_neg (by decide : ¬ (false = true))] at h2 h3
      exact ⟨h1, h2, h3⟩
    · intro h
      exact movePhase_skip g.brand_name b false h
    · rintro ⟨hv, hmem⟩
      obtain ⟨-, h1, h2, h3⟩ := movePhase_move g.generic_name gen false hgen hv hmem
      simp only [if_neg hne, Bool.if_false_left, if_false] at h2 h3 ⊢
      simp only [if_neg (by decide : ¬ (false = true))] at h2 h3
      exact ⟨h1, h2, h3⟩
    · intro h
      exact movePhase_skip g.generic_name gen false h
    · rintro ⟨hv, hmem⟩
      obtain ⟨-, h1, h2, h3⟩ := movePhase_move g.manufacturer m false hm hv hmem
      simp only [if_neg hne, Bool.if_false_left, if_false] at h2 h3 ⊢
      simp only [if_neg (by decide : ¬ (false = true))] at h2 h3
      exact ⟨h1, h2, h3⟩
    · intro h
      exact movePhase_skip g.manufacturer m false h

/-- C8 witness: the resolution theorem applied to a concrete group
with a deferred brand and generic value, resolved as accept. -/
theorem multi_deferred_resolution_witness :
    (mdGroup.brand_name.deferred.Nodup ∧
      mdGroup.generic_name.deferred.Nodup ∧
      mdGroup.manufacturer.deferred.Nodup ∧
      (("accept" : String) = "accept" ∨ ("accept" : String) = "reject")) ∧
    (resolveTriple mdGroup "bv" "gv" "mv" "defer" = mdGroup ∧
      ((¬ ("bv" : String) = "" ∧ "bv" ∈ mdGroup.brand_name.deferred) →
        "bv" ∉ (resolveTriple mdGroup "bv" "gv" "mv" "accept").brand_name.deferred ∧
        (resolveTriple mdGroup "bv" "gv" "mv" "accept").brand_name.accepted =
          (if ("accept" : String) = "accept" then mdGroup.brand_name.accepted ++ ["bv"]
           else mdGroup.brand_name.accepted) ∧
        (resolveTriple mdGroup "bv" "gv" "mv" "accept").brand_name.rejected =
          (if ("accept" : String) = "accept" then mdGroup.brand_name.rejected
           else mdGroup.brand_name.rejected ++ ["bv"])) ∧
      (¬(¬ ("bv" : String) = "" ∧ "bv" ∈ mdGroup.brand_name.deferred) →
        (resolveTriple mdGroup "bv" "gv" "mv" "accept").brand_name =
          mdGroup.brand_name) ∧
      ((¬ ("gv" : String) = "" ∧ "gv" ∈ mdGroup.generic_name.deferred) →
        "gv" ∉ (resolveTriple mdGroup "bv" "gv" "mv" "accept").generic_name.deferred ∧
        (resolveTriple mdGroup "bv" "gv" "mv" "accept").generic_name.accepted =
          (if ("accept" : String) = "accept" then mdGroup.generic_name.accepted ++ ["gv"]
           else mdGroup.generic_name.accepted) ∧
        (resolveTriple mdGroup "bv" "gv" "mv" "accept").generic_name.rejected =
          (if ("accept" : String) = "accept" then mdGroup.generic_name.rejected
           else mdGroup.generic_name.rejected ++ ["gv"])) ∧
      (¬(¬ ("gv" : String) = "" ∧ "gv" ∈ mdGroup.generic_name.deferred) →
        (resolveTriple mdGroup "bv" "gv" "mv" "accept").generic_name =
          mdGroup.generic_name) ∧
      ((¬ ("mv" : String) = "" ∧ "mv" ∈ mdGroup.manufacturer.deferred) →
        "mv" ∉ (resolveTriple mdGroup "bv" "gv" "mv" "accept").manufacturer.deferred ∧
        (resolveTriple mdGroup "bv" "gv" "mv" "accept").manufacturer.accepted =
          (if ("accept" : String) = "accept" then mdGroup.manufacturer.accepted ++ ["mv"]
           else mdGroup.manufacturer.accepted) ∧
        (resolveTriple mdGroup "bv" "gv" "mv" "accept").manufacturer.rejected =
          (if ("accept" : String) = "accept" then mdGroup.manufacturer.rejected
           else mdGroup.manufacturer.rejected ++ ["mv"])) ∧
      (¬(¬ ("mv" : String) = "" ∧ "mv" ∈ mdGroup.manufacturer.deferred) →
        (resolveTriple mdGroup "bv" "gv" "mv" "accept").manufacturer =
          mdGroup.manufacturer)) :=
  ⟨⟨by decide, by decide, by decide, Or.inl rfl⟩,
    multi_deferred_resolution mdGroup "bv" "gv" "mv" "accept"
      (by decide) (by decide) (by decide) (Or.inl rfl)⟩

/-- C3: the per-report unique-outcome set is the union of the parsed
per-patient code lists: for patients recording `D`, `D;H`, `D;H;L`
under one report the set is exactly `{D, H, L}` and the death code
counts once (per report) where naive per-patient flattening counts it
three times; the set is invariant under permuting the patient rows;
and extra whitespace around the codes (`D ; H ; L`) parses to the
same codes as `D;H;L`. -/
theorem count_unique_outcomes_dedup (rows rows' : List PatientRow)
    (k : String) (hperm : List.Perm rows rows') :
    reportOutcomeSet cruxRows "1111111" = {"D", "H", "L"} ∧
    uniqueCodeCount cruxRows "D" = 1 ∧
    naiveCodeCount cruxRows "D" = 3 ∧
    uniqueCodeCount cruxRows "D" < naiveCodeCount cruxRows "D" ∧
    reportOutcomeSet rows k = reportOutcomeSet rows' k ∧
    parseCodes "D ; H ; L" = parseCodes "D;H;L" := by
  refine ⟨by decide, by decide, by decide, by decide, ?_, by decide⟩
  unfold reportOutcomeSet
  have h1 : List.Perm (rows.filter fun r => r.key == k)
      (rows'.filter fun r => r.key == k) := hperm.filter _
  have h2 := (h1.map outcomeCodes).flatten
  apply Finset.ext
  intro a
  simp only [List.mem_toFinset]
  exact h2.mem_iff

/-- C3 witness: the deduplication theorem applied to a concrete
permutation of the crux table. -/
theorem count_unique_outcomes_dedup_witness :
    List.Perm cruxRows cruxRows.reverse ∧
    (reportOutcomeSet cruxRows "1111111" = {"D", "H", "L"} ∧
      uniqueCodeCount cruxRows "D" = 1 ∧
      naiveCodeCount cruxRows "D" = 3 ∧
      uniqueCodeCount cruxRows "D" < naiveCodeCount cruxRows "D" ∧
      reportOutcomeSet cruxRows "1111111" =
        reportOutcomeSet cruxRows.reverse "1111111" ∧
      parseCodes "D ; H ; L" = parseCodes "D;H;L") :=
  ⟨by decide,
    count_unique_outcomes_dedup cruxRows cruxRows.reverse "1111111" (by decide)⟩

theorem length_filter_add_length_filter {α : Type} (l : List α)
    (p q : α → Bool)
    (h : ∀ a ∈ l, (p a = true ∧ q a = false) ∨ (p a = false ∧ q a = true)) :
    (l.filter p).length + (l.filter q).length = l.length := by
  induction l with
  | nil => rfl
  | cons a l ih =>
      have ihl := ih fun x hx => h x (List.mem_cons_of_mem a hx)
      rcases h a (List.mem_cons_self a l) with ⟨hp, hq⟩ | ⟨hp, hq⟩ <;>
        simp [List.filter_cons, hp, hq] <;> omega

theorem stats_balance (records : List AdjRecord)
    (hvalid : ∀ r ∈ records,
      r.decision = "include" ∨ r.decision = "exclude") :
    (getStatistics records).inclusions + (getStatistics records).exclusions =
      (getStatistics records).total_decisions := by
  unfold getStatistics
  split_ifs with he
  · rfl
  · dsimp only
    apply length_filter_add_length_filter
    intro r hr
    rcases hvalid r hr with h | h <;> simp [h]

/-- C10: every record appended by `add` (and hence by
`include_remaining` / `exclude_remaining`) has decision `include` or
`exclude`, so a never-loaded log satisfies
`inclusions + exclusions = total_decisions`; `_load_from_csv` does not
validate the decision field, so a loaded log can hold a record whose
decision is neither value, making the sum strictly smaller and leaving
that record's key out of both `get_inclusion_keys` and
`get_exclusion_keys`. -/
theorem decision_validation_asymmetry
    (records records' : List AdjRecord) (mdrKeys : List String)
    (decision reason reviewer sv di sg : String) (now : Nat)
    (cands : List CandRow) (r1 v1 s1 : String) (u1 d1 g1 : Bool) (n1 : Nat)
    (hvalid : ∀ r ∈ records,
      r.decision = "include" ∨ r.decision = "exclude")
    (hadd : logAdd records mdrKeys decision reason reviewer sv di sg now =
      Except.ok records') :
    (∀ r ∈ records', r.decision = "include" ∨ r.decision = "exclude") ∧
    (∀ r ∈ (includeRemaining records cands r1 v1 s1 u1 d1 g1 n1).1,
      r.decision = "include" ∨ r.decision = "exclude") ∧
    (∀ r ∈ (excludeRemaining records cands r1 v1 s1 u1 d1 g1 n1).1,
      r.decision = "include" ∨ r.decision = "exclude") ∧
    (getStatistics records).inclusions + (getStatistics records).exclusions =
      (getStatistics records).total_decisions ∧
    ((getStatistics (loadFromCsv
          [csvHeader, ["1", "maybe", "", "", "x", "", "", ""]] 7)).inclusions +
        (getStatistics (loadFromCsv
          [csvHeader, ["1", "maybe", "", "", "x", "", "", ""]] 7)).exclusions <
      (getStatistics (loadFromCsv
          [csvHeader, ["1", "maybe", "", "", "x", "", "", ""]] 7)).total_decisions ∧
      "1" ∉ getInclusionKeys (loadFromCsv
          [csvHeader, ["1", "maybe", "", "", "x", "", "", ""]] 7) ∧
      "1" ∉ getExclusionKeys (loadFromCsv
          [csvHeader, ["1", "maybe", "", "", "x", "", "", ""]] 7)) := by
  have hvalid' : ∀ r ∈ records',
      r.decision = "include" ∨ r.decision = "exclude" := by
    unfold logAdd at hadd
    by_cases hdec : (!(decision == "include" || decision == "exclude")) = true
    · rw [if_pos hdec] at hadd
      exact Except.noConfusion hadd
    · rw [if_neg hdec] at hadd
      injection hadd with h'
      subst h'
      intro r hr
      rcases List.mem_append.mp hr with h | h
      · exact hvalid r h
      · obtain ⟨kk, -, rfl⟩ := List.mem_map.mp h
        have hb : (decision == "include" || decision == "exclude") = true := by
          cases hb : (decision == "include" || decision == "exclude")
          · exact absurd (by rw [hb]; rfl) hdec
          · rfl
        rcases Bool.or_eq_true_iff.mp hb with h | h
        · exact Or.inl (by simpa using h)
        · exact Or.inr (by simpa using h)
  refine ⟨hvalid', ?_, ?_, stats_balance records hvalid, by decide, by decide,
    by decide⟩
  · intro r hr
    rcases List.mem_append.mp hr with h | h
    · exact hvalid r h
    · obtain ⟨kk, -, rfl⟩ := List.mem_map.mp h
      exact Or.inl rfl
  · intro r hr
    rcases List.mem_append.mp hr with h | h
    · exact hvalid r h
    · obtain ⟨kk, -, rfl⟩ := List.mem_map.mp h
      exact Or.inr rfl

/-- C10 witness: the asymmetry theorem applied to one `add` call on an
empty log. -/
theorem decision_validation_asymmetry_witness :
    ((∀ r ∈ ([] : List AdjRecord),
        r.decision = "include" ∨ r.decision = "exclude") ∧
      logAdd [] ["k"] "include" "" "" "" "" "" 0 = Except.ok
        [(⟨"k", "include", "", "", 0, "", "", ""⟩ : AdjRecord)]) ∧
    ((∀ r ∈ [(⟨"k", "include", "", "", 0, "", "", ""⟩ : AdjRecord)],
        r.decision = "include" ∨ r.decision = "exclude") ∧
      (∀ r ∈ (includeRemaining [] [] "" "" "" false false false 0).1,
        r.decision = "include" ∨ r.decision = "exclude") ∧
      (∀ r ∈ (excludeRemaining [] [] "" "" "" false false false 0).1,
        r.decision = "include" ∨ r.decision = "exclude") ∧
      (getStatistics []).inclusions + (getStatistics []).exclusions =
        (getStatistics []).total_decisions ∧
      ((getStatistics (loadFromCsv
            [csvHeader, ["1", "maybe", "", "", "x", "", "", ""]] 7)).inclusions +
          (getStatistics (loadFromCsv
            [csvHeader, ["1", "maybe", "", "", "x", "", "", ""]] 7)).exclusions <
        (getStatistics (loadFromCsv
            [csvHeader, ["1", "maybe", "", "", "x", "", "", ""]] 7)).total_decisions ∧
        "1" ∉ getInclusionKeys (loadFromCsv
            [csvHeader, ["1", "maybe", "", "", "x", "", "", ""]] 7) ∧
        "1" ∉ getExclusionKeys (loadFromCsv
            [csvHeader, ["1", "maybe", "", "", "x", "", "", ""]] 7))) :=
  ⟨⟨fun r hr => absurd hr (List.not_mem_nil r), by rfl⟩,
    decision_validation_asymmetry [] _ ["k"] "include" "" "" "" "" "" 0
      [] "" "" "" false false false 0
      (fun r hr => absurd hr (List.not_mem_nil r)) (by rfl)⟩

/-- C1 counterexample: with well-formed non-empty criteria, a store
whose broad search returns two rows for the same report identifier
(one matching an exclusion pattern, one not) makes `apply` return an
excluded table and a needs-review table that share the identifier
`"1"`, so the three outputs are not pairwise disjoint by report
identifier. -/
theorem apply_pairwise_disjoint_cex :
    Strategy.apply { baseStrategy with exclusion_patterns := ["x"] }
        dupKeyDb allCols =
      Except.ok ([], [rowOf "1" "x"], [rowOf "1" "y"]) ∧
    ¬ DisjointKeys [rowOf "1" "x"] [rowOf "1" "y"] := by
  constructor
  · rfl
  · decide

/-- C1 (amended): for every strategy with non-empty broad and narrow
criteria and every store, PROVIDED the broad search result carries no
duplicate report identifier (as strings), the three DataFrames
returned by `apply` are pairwise disjoint by report identifier. -/
theorem apply_outputs_pairwise_disjoint (s : Strategy)
    (db : Criteria → List Row) (c : Cols)
    (out : List Row × List Row × List Row)
    (hok : s.apply db c = Except.ok out)
    (hnodup : (keysOf (db s.broad_criteria)).Nodup) :
    DisjointKeys out.1 out.2.1 ∧ DisjointKeys out.1 out.2.2 ∧
      DisjointKeys out.2.1 out.2.2 := by
  rw [apply_ok_elim hok]
  exact applyCore_disjoint s c _ _ hnodup

/-- C1 witness: the amended theorem applied to a concrete strategy and
store with distinct broad keys. -/
theorem apply_outputs_pairwise_disjoint_witness :
    (Strategy.apply baseStrategy smallDb allCols =
        Except.ok ([rowOf "3" "a"], [], [rowOf "1" "a", rowOf "2" "a"]) ∧
      (keysOf (smallDb baseStrategy.broad_criteria)).Nodup) ∧
    (DisjointKeys ([rowOf "3" "a"] : List Row) ([] : List Row) ∧
      DisjointKeys ([rowOf "3" "a"] : List Row) [rowOf "1" "a", rowOf "2" "a"] ∧
      DisjointKeys ([] : List Row) [rowOf "1" "a", rowOf "2" "a"]) :=
  ⟨⟨by rfl, by decide⟩,
    apply_outputs_pairwise_disjoint baseStrategy smallDb allCols
      ([rowOf "3" "a"], [], [rowOf "1" "a", rowOf "2" "a"])
      (by rfl) (by decide)⟩

end PyMaude
